import Mathlib

/-!
Verification development for the clinical-trials RAG repository.

The Python source of `rag_server.py` and `download_informed_consent.py` is
shallowly embedded: strings become `List Char` (ASCII semantics), Python
dictionaries become association lists with overwrite-on-insert, the regular
expressions of the source are implemented operationally (leftmost,
non-overlapping matching with lazy or greedy quantifiers exactly as the
engine resolves them), and external services (HTTP fetch, PDF text
extraction, embedding, chat completion, filesystem listing) are supplied as
oracle fields of an environment record.
-/

namespace Trials

/-- Python whitespace test restricted to ASCII: the characters recognised by
`str.strip` and the regex class backslash-s on ASCII input. -/
def isPySpace (c : Char) : Bool :=
  c == ' ' || c == '\t' || c == '\n' || c == '\r' || c == '\x0b' || c == '\x0c'

/-- ASCII `str.upper` on a single character, as a literal table so that every
case is decidable by direct case split. -/
def pyUpper : Char → Char
  | 'a' => 'A' | 'b' => 'B' | 'c' => 'C' | 'd' => 'D' | 'e' => 'E' | 'f' => 'F'
  | 'g' => 'G' | 'h' => 'H' | 'i' => 'I' | 'j' => 'J' | 'k' => 'K' | 'l' => 'L'
  | 'm' => 'M' | 'n' => 'N' | 'o' => 'O' | 'p' => 'P' | 'q' => 'Q' | 'r' => 'R'
  | 's' => 'S' | 't' => 'T' | 'u' => 'U' | 'v' => 'V' | 'w' => 'W' | 'x' => 'X'
  | 'y' => 'Y' | 'z' => 'Z'
  | c => c

/-- ASCII `str.lower` on a single character. -/
def pyLower : Char → Char
  | 'A' => 'a' | 'B' => 'b' | 'C' => 'c' | 'D' => 'd' | 'E' => 'e' | 'F' => 'f'
  | 'G' => 'g' | 'H' => 'h' | 'I' => 'i' | 'J' => 'j' | 'K' => 'k' | 'L' => 'l'
  | 'M' => 'm' | 'N' => 'n' | 'O' => 'o' | 'P' => 'p' | 'Q' => 'q' | 'R' => 'r'
  | 'S' => 's' | 'T' => 't' | 'U' => 'u' | 'V' => 'v' | 'W' => 'w' | 'X' => 'x'
  | 'Y' => 'y' | 'Z' => 'z'
  | c => c

/-- Python `str.strip()`: remove whitespace from both ends. -/
def pyStrip (l : List Char) : List Char :=
  ((l.dropWhile isPySpace).reverse.dropWhile isPySpace).reverse

/-- Python `str.strip(",")`: remove commas from both ends. -/
def stripCommas (l : List Char) : List Char :=
  ((l.dropWhile (· == ',')).reverse.dropWhile (· == ',')).reverse

/-- Case-insensitive ASCII startswith, used for the source tests
`path_or_url.lower().startswith("http")` and similar. -/
def ciStartsWith (pat l : List Char) : Bool :=
  List.isPrefixOf pat (l.map pyLower)

/-- Case-insensitive ASCII endswith, used for `f.lower().endswith(".pdf")`. -/
def ciEndsWith (pat l : List Char) : Bool :=
  List.isPrefixOf pat.reverse ((l.map pyLower).reverse)

/-- `str.replace("NCT", "")` after upper-casing: delete every occurrence of
the literal `NCT`, scanning left to right. -/
def removeNCT : List Char → List Char
  | 'N' :: 'C' :: 'T' :: rest => removeNCT rest
  | c :: rest => c :: removeNCT rest
  | [] => []

/-- Python `str.zfill(w)`: left-pad with zeros to width `w`, keeping a
leading sign character in place. -/
def pyZfill (w : Nat) (s : List Char) : List Char :=
  if w ≤ s.length then s
  else
    match s with
    | c :: rest =>
      if c = '+' ∨ c = '-' then c :: (List.replicate (w - s.length) '0' ++ rest)
      else List.replicate (w - s.length) '0' ++ s
    | [] => List.replicate w '0'

/-- `normalize_nct` from `rag_server.py` on the character list level:
strip, uppercase, delete all `NCT` occurrences, delete all non-digits,
left-pad the digits with zeros to width 8 and re-prepend the prefix. -/
def normalizeNctL (l : List Char) : List Char :=
  'N' :: 'C' :: 'T' :: pyZfill 8 (List.filter Char.isDigit (removeNCT (List.map pyUpper (pyStrip l))))

/-- `normalize_nct` on `String`. -/
def normalize_nct (x : String) : String :=
  String.mk (normalizeNctL x.data)

/-- Digit subsequence of a string; `normalize_nct` is determined by it. -/
def digitsOf (l : List Char) : List Char :=
  List.filter Char.isDigit l

/-- The spec predicate: the result consists of the fixed prefix `NCT`
followed by exactly eight digits. -/
def matchesNCT8 (s : String) : Bool :=
  s.data.length = 11 && decide (s.data.take 3 = ['N', 'C', 'T']) && (s.data.drop 3).all Char.isDigit

/-- A Python dict of strings, as an association list; `dput` overwrites any
earlier binding of the key, `List.lookup` reads it back. -/
abbrev Dict := List (List Char × List Char)

/-- Dictionary write `d[k] = v`: the new binding shadows and removes any
older binding of `k`. -/
def dput (d : Dict) (k v : List Char) : Dict :=
  (k, v) :: List.filter (fun p => !(p.1 == k)) d

/-- Dictionary read `d.get(k)`. -/
def dget (d : Dict) (k : List Char) : Option (List Char) :=
  List.lookup k d

/-- The metadata value flushed per record by `load_ris` in `rag_server.py`:
title and year default to the empty string, and the whole `AU` value is kept
as a one-element author list when it is present and non-empty. -/
structure SrvMeta where
  title : String
  year : String
  authors : List String
deriving DecidableEq

/-- The metadata value flushed per record by `parse_ris` in
`download_informed_consent.py`: the author field is the substring of the
`AU` value before its first comma. -/
structure DlMeta where
  title : String
  year : String
  author : String
deriving DecidableEq

/-- Record flush of `load_ris`: `{"title": rec.get("TI",""), "year":
rec.get("PY",""), "authors": [rec.get("AU","")] if rec.get("AU") else []}`. -/
def mkSrvMeta (rec : Dict) : SrvMeta :=
  { title := String.mk ((dget rec ['T', 'I']).getD [])
    year := String.mk ((dget rec ['P', 'Y']).getD [])
    authors :=
      match dget rec ['A', 'U'] with
      | some a => if a = [] then [] else [String.mk a]
      | none => [] }

/-- Record flush of `parse_ris`: `record.get('AU', '').split(',')[0]` keeps
the characters before the first comma. -/
def mkDlMeta (rec : Dict) : DlMeta :=
  { title := String.mk ((dget rec ['T', 'I']).getD [])
    year := String.mk ((dget rec ['P', 'Y']).getD [])
    author := String.mk (List.takeWhile (fun c => !(c == ',')) ((dget rec ['A', 'U']).getD [])) }

/-- One line of the tag-value stream: `tag = ln[:2].strip()`,
`val = ln[6:].strip()`. -/
def risTag (ln : List Char) : List Char := pyStrip (ln.take 2)

/-- Value part of a tag-value line. -/
def risVal (ln : List Char) : List Char := pyStrip (ln.drop 6)

/-- Loop body of `load_ris`: skip blank tags; a `TY` tag while a record is
open flushes the record (if it has an `ID`) into the map keyed by the
normalized identifier, then the line is stored into the (possibly fresh)
accumulator. -/
def loadRisStep (st : List (String × SrvMeta) × Dict) (ln : List Char) :
    List (String × SrvMeta) × Dict :=
  let tag := risTag ln
  let val := risVal ln
  if tag = [] then st
  else if tag = ['T', 'Y'] ∧ st.2 ≠ [] then
    (match dget st.2 ['I', 'D'] with
     | some idv =>
       ((String.mk (normalizeNctL idv), mkSrvMeta st.2) ::
         List.filter (fun p => !(p.1 == String.mk (normalizeNctL idv))) st.1,
        dput [] tag val)
     | none => (st.1, dput [] tag val))
  else (st.1, dput st.2 tag val)

/-- `load_ris` from `rag_server.py` over a stream of lines: fold the loop
body, then flush whatever record remains open. -/
def load_ris (lines : List (List Char)) : List (String × SrvMeta) :=
  let st := lines.foldl loadRisStep ([], [])
  match dget st.2 ['I', 'D'] with
  | some idv =>
    (String.mk (normalizeNctL idv), mkSrvMeta st.2) ::
      List.filter (fun p => !(p.1 == String.mk (normalizeNctL idv))) st.1
  | none => st.1

/-- Loop body of `parse_ris` in `download_informed_consent.py`; identical
control flow, but records are keyed by the raw `ID` value and flushed with
`mkDlMeta`. -/
def parseRisStep (st : List (String × DlMeta) × Dict) (ln : List Char) :
    List (String × DlMeta) × Dict :=
  let tag := risTag ln
  let val := risVal ln
  if tag = [] then st
  else if tag = ['T', 'Y'] ∧ st.2 ≠ [] then
    (match dget st.2 ['I', 'D'] with
     | some idv =>
       ((String.mk idv, mkDlMeta st.2) ::
         List.filter (fun p => !(p.1 == String.mk idv)) st.1,
        dput [] tag val)
     | none => (st.1, dput [] tag val))
  else (st.1, dput st.2 tag val)

/-- `parse_ris` from `download_informed_consent.py`. -/
def parse_ris (lines : List (List Char)) : List (String × DlMeta) :=
  let st := lines.foldl parseRisStep ([], [])
  match dget st.2 ['I', 'D'] with
  | some idv =>
    (String.mk idv, mkDlMeta st.2) ::
      List.filter (fun p => !(p.1 == String.mk idv)) st.1
  | none => st.1

/-- Python `str.split(sep)` on a single separator character, keeping empty
segments. -/
def splitOnChar (sep : Char) : List Char → List (List Char)
  | [] => [[]]
  | c :: rest =>
    if c = sep then [] :: splitOnChar sep rest
    else
      match splitOnChar sep rest with
      | h :: t => (c :: h) :: t
      | [] => [[c]]

/-- Character class of the URL regex in `extract_pairs`: anything except
whitespace, comma and pipe. -/
def okClass (c : Char) : Bool :=
  !(isPySpace c) && !(c == ',') && !(c == '|')

/-- Literal tail of the URL regex: a case-insensitive `.pdf` whose following
character, if any, is whitespace (the negative lookahead `(?!` backslash-S
`)`). -/
def pdfBoundary (l : List Char) : Bool :=
  List.isPrefixOf ['.', 'p', 'd', 'f'] (l.map pyLower) &&
    (match l.drop 4 with
     | [] => true
     | c :: _ => isPySpace c)

/-- The lazy quantifier of the URL regex body: consume the smallest positive
number of class characters after which `.pdf` plus the boundary follows;
returns that count. -/
def bodyScan : List Char → Option Nat
  | [] => none
  | c :: rest =>
    if okClass c then
      if pdfBoundary rest then some 1
      else (bodyScan rest).map (· + 1)
    else none

/-- Length of the regex match starting at the head of `l`, if any:
case-insensitive `http`, an optional `s`, the literal `://`, the lazy body,
and the four characters of `.pdf`. -/
def matchAt (l : List Char) : Option Nat :=
  if ciStartsWith ['h', 't', 't', 'p'] (l.take 4) then
    let pre := if ciStartsWith ['s'] ((l.drop 4).take 1) then 5 else 4
    if List.isPrefixOf [':', '/', '/'] (l.drop pre) then
      match bodyScan (l.drop (pre + 3)) with
      | some n => some (pre + 3 + n + 4)
      | none => none
    else none
  else none

/-- Scanner of `url_re.findall(p)`: leftmost, non-overlapping matches,
resuming right after each match; the second argument counts positions still
inside the most recent match, so the recursion is structural. -/
def findAllAux : List Char → Nat → List (List Char)
  | [], _ => []
  | _ :: rest, skip + 1 => findAllAux rest skip
  | c :: rest, 0 =>
    match matchAt (c :: rest) with
    | some n => (c :: rest).take n :: findAllAux rest (n - 1)
    | none => findAllAux rest 0

/-- `url_re.findall(p)`. -/
def findAllUrls (l : List Char) : List (List Char) :=
  findAllAux l 0

/-- `p.split(u, 1)[0]`: the part of `p` before the first occurrence of `u`
(all of `p` when `u` does not occur). -/
def beforeFirst : List Char → List Char → List Char
  | [], _ => []
  | c :: rest, u =>
    if List.isPrefixOf u (c :: rest) then []
    else c :: beforeFirst rest u

/-- `extract_pairs` from `rag_server.py`: null-like cells give no pairs; the
cell is split on pipes into trimmed non-empty segments; segments with URL
regex matches yield one pair per match with the pre-match text (whitespace-
then comma-stripped, defaulting to `Document`) as label; otherwise a segment
containing a comma whose tail starts case-insensitively with `http` yields a
single trimmed pair. -/
def extract_pairs (cell : List Char) : List (List Char × List Char) :=
  if cell = [] ∨ (pyStrip cell).map pyLower = ['n', 'a', 'n'] ∨
      (pyStrip cell).map pyLower = ['n', 'o', 'n', 'e'] then []
  else
    let parts := ((splitOnChar '|' cell).map pyStrip).filter (fun p => p ≠ [])
    parts.flatMap (fun p =>
      let urls := findAllUrls p
      if urls ≠ [] then
        urls.map (fun u =>
          let label := stripCommas (pyStrip (beforeFirst p u))
          (if label = [] then ['D', 'o', 'c', 'u', 'm', 'e', 'n', 't'] else label, u))
      else
        if ',' ∈ p then
          let lab := List.takeWhile (fun c => !(c == ',')) p
          let rest := p.drop (lab.length + 1)
          if ciStartsWith ['h', 't', 't', 'p'] ((pyStrip rest).take 4) then
            [(pyStrip lab, pyStrip rest)]
          else []
        else [])

/-- Index of the last newline at position 1 or later inside the whitespace
run `w`; drives the backtracking of the regex `(backslash-s)+(newline)`. -/
def lastNlIdx (w : List Char) : Option Nat :=
  (List.range w.length).foldl
    (fun acc k => if 1 ≤ k ∧ w.getD k ' ' = '\n' then some k else acc) none

/-- Scanner of the first preprocessing substitution of `chunk_text`: each
leftmost match of whitespace-run-ending-in-newline collapses to a single
newline; the second argument counts positions still inside the most recent
match, keeping the recursion structural. -/
def sub1Aux : List Char → Nat → List Char
  | [], _ => []
  | _ :: rest, skip + 1 => sub1Aux rest skip
  | c :: rest, 0 =>
    match lastNlIdx (List.takeWhile isPySpace (c :: rest)) with
    | some k => '\n' :: sub1Aux rest k
    | none => c :: sub1Aux rest 0

/-- First preprocessing substitution of `chunk_text`. -/
def sub1 (l : List Char) : List Char :=
  sub1Aux l 0

/-- Scanner of the second preprocessing substitution of `chunk_text`: runs
of two or more newlines collapse to exactly two; the flag records that the
scanner is still swallowing the tail of a newline run. -/
def sub2Aux : List Char → Bool → List Char
  | '\n' :: '\n' :: rest, false => '\n' :: '\n' :: sub2Aux rest true
  | c :: rest, false => c :: sub2Aux rest false
  | '\n' :: rest, true => sub2Aux rest true
  | c :: rest, true => c :: sub2Aux rest false
  | [], _ => []

/-- Second preprocessing substitution of `chunk_text`. -/
def sub2 (l : List Char) : List Char :=
  sub2Aux l false

/-- Python slice `s[start:stop]` for a non-negative start and a possibly
negative stop. -/
def pySlice (s : List Char) (start : Nat) (stop : Int) : List Char :=
  let stopN : Nat := if stop < 0 then ((s.length : Int) + stop).toNat else stop.toNat
  (s.drop start).take (stopN - start)

/-- The while loop of `chunk_text`: emit `s[i:i+chunk_chars]` and advance by
`max 1 (chunk_chars - overlap)` until the index leaves the string. -/
def chunkLoop (s : List Char) (cc ov : Int) (i : Nat) : List (List Char) :=
  if i < s.length then
    pySlice s i ((i : Int) + cc) :: chunkLoop s cc ov (i + (max 1 (cc - ov)).toNat)
  else []
termination_by s.length - i
decreasing_by
  have h1 : (1 : Int) ≤ max 1 (cc - ov) := le_max_left _ _
  omega

/-- `chunk_text` from `rag_server.py`: normalize whitespace, slide the
window, then keep the non-empty stripped chunks. -/
def chunk_text (s : List Char) (cc ov : Int) : List (List Char) :=
  ((chunkLoop (sub2 (sub1 s)) cc ov 0).map pyStrip).filter (fun c => c ≠ [])

/-- `chunk_text` with the configured window (700) and overlap (120), on
`String`, as `build_context_for_nct` calls it. -/
def chunkTextS (s : String) : List String :=
  (chunk_text s.data 700 120).map String.mk

/-- Dot product of two vectors, `chunk_vecs @ qv` row by row; the floats of
the source are idealised as real numbers. -/
noncomputable def dotR (v w : List ℝ) : ℝ :=
  (List.zipWith (fun a b => a * b) v w).sum

/-- Euclidean norm, `np.linalg.norm`. -/
noncomputable def normR (v : List ℝ) : ℝ :=
  Real.sqrt (dotR v v)

/-- The similarity scores computed by `topk`: the denominator carries the
stabilising `1e-8` term of the source. -/
noncomputable def simsOf (qv : List ℝ) (vecs : List (List ℝ)) : List ℝ :=
  vecs.map (fun v => dotR v qv / (normR v * normR qv + 1 / 100000000))

/-- Cosine similarity as the specification describes the ranking criterion;
this is the reference definition the code is compared against, not part of
the code. -/
noncomputable def cosineSim (v w : List ℝ) : ℝ :=
  dotR v w / (normR v * normR w)

/-- Index order produced by `np.argsort(-sims)` read as a stable descending
sort: position `i` precedes `j` when its score is larger, or on equal scores
when `i ≤ j`.  Modelled from the spec: the argsort itself is library code
outside the repository, and the spec fixes its tie order as stable. -/
def rankRel (s : List ℝ) (i j : Nat) : Prop :=
  s.getD j 0 < s.getD i 0 ∨ (s.getD i 0 = s.getD j 0 ∧ i ≤ j)

noncomputable instance rankRelDec (s : List ℝ) : DecidableRel (rankRel s) :=
  fun i j => by unfold rankRel; infer_instance

instance rankRelTotal (s : List ℝ) : IsTotal Nat (rankRel s) := by
  constructor
  intro i j
  unfold rankRel
  rcases lt_trichotomy (s.getD i 0) (s.getD j 0) with h | h | h
  · exact Or.inr (Or.inl h)
  · rcases Nat.le_total i j with hij | hij
    · exact Or.inl (Or.inr ⟨h, hij⟩)
    · exact Or.inr (Or.inr ⟨h.symm, hij⟩)
  · exact Or.inl (Or.inl h)

instance rankRelTrans (s : List ℝ) : IsTrans Nat (rankRel s) := by
  constructor
  intro a b c hab hbc
  unfold rankRel at hab hbc ⊢
  rcases hab with hab | ⟨hab, hab2⟩ <;> rcases hbc with hbc | ⟨hbc, hbc2⟩
  · exact Or.inl (lt_trans hbc hab)
  · exact Or.inl (hbc ▸ hab)
  · exact Or.inl (by rw [hab]; exact hbc)
  · exact Or.inr ⟨hab.trans hbc, hab2.trans hbc2⟩

/-- `np.argsort(-sims)` with the stable tie order of `rankRel`. -/
noncomputable def argsortDesc (s : List ℝ) : List Nat :=
  List.insertionSort (rankRel s) (List.range s.length)

/-- `topk` from `rag_server.py`: empty chunk list short-circuits; otherwise
the query is embedded, scores are computed, and the chunks at the first `k`
argsorted indices are returned. -/
noncomputable def topk (embedFn : String → List ℝ) (query : String)
    (chunks : List String) (vecs : List (List ℝ)) (k : Nat) : List String :=
  if chunks = [] then []
  else ((argsortDesc (simsOf (embedFn query) vecs)).take k).map (fun i => chunks.getD i "")

/-- One row of the tabular (CSV) source, as the out-of-scope loader hands it
over: identifier cell, registry URL, free-text documents cell, display
title. -/
structure CsvRawRow where
  nctNumber : String
  studyUrl : String
  studyDocuments : String
  studyTitle : String

/-- One value of `CSV_MAP`. -/
structure CsvVal where
  study_url : String
  docs : List (String × String)
  study_title : String

/-- The `CSV_MAP` building loop of `rag_server.py`: key by the normalized
identifier, parse the documents cell with `extract_pairs`, overwrite on
duplicate keys. -/
def csvMapOf (rows : List CsvRawRow) : List (String × CsvVal) :=
  rows.foldl (fun m r =>
    (normalize_nct r.nctNumber,
      { study_url := r.studyUrl
        docs := (extract_pairs r.studyDocuments.data).map (fun p => (String.mk p.1, String.mk p.2))
        study_title := r.studyTitle }) ::
      m.filter (fun p => !(p.1 == normalize_nct r.nctNumber))) []

/-- The metadata record assembled inside `build_context_for_nct`. -/
structure StudyMeta where
  nct : String
  title : String
  year : String
  authors : List String
  registry_url : String
  doc_urls : List String

/-- The per-identifier cache entry. -/
structure CtxEntry where
  meta : StudyMeta
  chunks : List String
  vecs : List (List ℝ)
  srcmap : List (String × Nat)

/-- The process environment of `rag_server.py`: filesystem oracles, the two
source files, and the external services (document fetch plus text
extraction, embeddings, JSON serialisation, chat completion). -/
structure RagEnv where
  isdir : String → Bool
  listdir : String → List String
  csvRows : List CsvRawRow
  risLines : List (List Char)
  fetch : String → Option String
  embed : List String → List (List ℝ)
  embedQuery : String → List ℝ
  jsonMeta : StudyMeta → String
  genAnswer : String → String → String

/-- The configured download directory. -/
def DOWNLOAD_DIR : String := "/Users/sg/Desktop/nih/informed consent/downloads"

/-- `os.path.join(DOWNLOAD_DIR, nct)`. -/
def nctFolder (nct : String) : String := DOWNLOAD_DIR ++ "/" ++ nct

/-- `get_local_pdfs` from `rag_server.py`: for a missing directory the empty
list; otherwise the directory entries whose lower-cased name ends in `.pdf`,
joined onto the folder path. -/
def get_local_pdfs (env : RagEnv) (nct : String) : List String :=
  if env.isdir (nctFolder nct) then
    ((env.listdir (nctFolder nct)).filter
        (fun f => ciEndsWith ['.', 'p', 'd', 'f'] f.data)).map
      (fun f => nctFolder nct ++ "/" ++ f)
  else []

/-- `CSV_MAP.get(nct, {})`. -/
def csvGet (env : RagEnv) (nct : String) : Option CsvVal :=
  List.lookup nct (csvMapOf env.csvRows)

/-- `RIS_MAP.get(nct, {})`. -/
def risGet (env : RagEnv) (nct : String) : Option SrvMeta :=
  List.lookup nct (load_ris env.risLines)

/-- The `meta` dictionary of `build_context_for_nct`: the title prefers a
non-empty bibliographic title over the tabular one, the other fields come
from whichever source carries them, with empty defaults. -/
def metaOf (env : RagEnv) (nct : String) : StudyMeta :=
  { nct := nct
    title :=
      (match risGet env nct with
       | some m => if m.title ≠ "" then m.title else
           (match csvGet env nct with
            | some c => c.study_title
            | none => "")
       | none =>
           (match csvGet env nct with
            | some c => c.study_title
            | none => ""))
    year := match risGet env nct with | some m => m.year | none => ""
    authors := match risGet env nct with | some m => m.authors | none => []
    registry_url := match csvGet env nct with | some c => c.study_url | none => ""
    doc_urls := (match csvGet env nct with | some c => c.docs | none => []).map Prod.snd }

/-- Source selection of `build_context_for_nct`: local PDFs when any exist,
otherwise the URL components of the parsed CSV document pairs. -/
def buildSources (env : RagEnv) (nct : String) : List String :=
  let locals := get_local_pdfs env nct
  if locals ≠ [] then locals
  else (match csvGet env nct with | some c => c.docs | none => []).map Prod.snd

/-- Instrumented result of one `build_context_for_nct` call: the entry, the
cache afterwards, how many fetch attempts were made and on which sources. -/
structure BuildOut where
  entry : CtxEntry
  cache2 : List (String × CtxEntry)
  fetchCalls : Nat
  attempted : List String

/-- `build_context_for_nct` from `rag_server.py`: return a cached entry
unchanged; otherwise read, chunk and embed the first five sources, skipping
sources whose fetch or extraction fails, and store the new entry. -/
def build_context_for_nct (env : RagEnv) (cache : List (String × CtxEntry))
    (nct : String) : BuildOut :=
  match List.lookup nct cache with
  | some e => ⟨e, cache, 0, []⟩
  | none =>
    let sources := buildSources env nct
    let att := sources.take 5
    let perSrc := att.filterMap (fun src => (env.fetch src).map (fun txt => (src, chunkTextS txt)))
    let allChunks := perSrc.flatMap (fun p => p.2)
    let srcmap := perSrc.flatMap (fun p => (List.range p.2.length).map (fun i => (p.1, i)))
    let vecs := if allChunks = [] then [] else env.embed allChunks
    let entry : CtxEntry := ⟨metaOf env nct, allChunks, vecs, srcmap⟩
    ⟨entry, (nct, entry) :: cache, att.length, att⟩

/-- The fixed apology of the `/chat` endpoint. -/
def apologyMsg : String :=
  "I couldn\x27t load any text for this study yet (no readable PDFs). Try again or check the CSV links."

/-- The fixed system prompt of the `/chat` endpoint. -/
def systemMsg : String :=
  "You answer questions about a single clinical study. Use only the provided context chunks (RIS + PDF text). Cite short quotes. If you don\x27t see an answer in context, say so honestly."

/-- `context_text`: the top chunks labelled with 1-based indices, joined by
blank lines. -/
def contextText (top : List String) : String :=
  String.intercalate "\n\n"
    (top.enum.map (fun p => "[Chunk " ++ toString (p.1 + 1) ++ "]\n" ++ p.2))

/-- The user message of the chat prompt. -/
def userMsg (metaJson ctx question : String) : String :=
  "RIS metadata:\n" ++ metaJson ++ "\n\nContext chunks from PDFs:\n" ++ ctx ++
    "\n\nQuestion: " ++ question ++
    "\n\nAnswer clearly and concisely, cite page numbers if visible in the text."

/-- Instrumented result of one `/chat` call: the response fields, the number
of generation-service calls made, and the cache afterwards. -/
structure ChatOut where
  answer : String
  meta : StudyMeta
  genCalls : Nat
  cache2 : List (String × CtxEntry)

/-- The `/chat` endpoint: normalize the identifier, fetch or build the
context, answer apologetically without generation when no chunks exist,
otherwise rank chunks and call the generation service once. -/
noncomputable def chat (env : RagEnv) (cache : List (String × CtxEntry))
    (nctRaw question : String) : ChatOut :=
  let nct := normalize_nct nctRaw
  let b := build_context_for_nct env cache nct
  if b.entry.chunks = [] then ⟨apologyMsg, b.entry.meta, 0, b.cache2⟩
  else
    let top := topk env.embedQuery question b.entry.chunks b.entry.vecs 8
    let answer := env.genAnswer systemMsg
      (userMsg (env.jsonMeta b.entry.meta) (contextText top) question)
    ⟨String.mk (pyStrip answer.data), b.entry.meta, 1, b.cache2⟩

/-- Filesystem events of the transient artifact used by `read_pdf_text`. -/
inductive FsEvent where
  | create (name : String)
  | unlink (name : String)
deriving DecidableEq

/-- `read_pdf_text` from `rag_server.py` with its filesystem footprint: a
remote source that fetches successfully writes one temporary file, and the
`try/finally` unlinks it whether extraction succeeds or raises; a failed
fetch never creates the file; a local source touches no temporary file.
`fetchRes` is the retrieval oracle (`None` is a raised request error) and
`extractDoc` the extraction oracle (`None` is a raised parse error),
applied to the fetched content or the local path. -/
def read_pdf_text_fs (pathOrUrl tmpName : String) (fetchRes : Option String)
    (extractDoc : String → Option String) : Option String × List FsEvent :=
  if ciStartsWith ['h', 't', 't', 'p'] pathOrUrl.data then
    match fetchRes with
    | none => (none, [])
    | some content =>
      match extractDoc content with
      | some txt => (some txt, [FsEvent.create tmpName, FsEvent.unlink tmpName])
      | none => (none, [FsEvent.create tmpName, FsEvent.unlink tmpName])
  else (extractDoc pathOrUrl, [])

/-- A minimal concrete environment: no directories, no tabular or
bibliographic rows, every fetch fails. -/
def envEmpty : RagEnv :=
  { isdir := fun _ => false
    listdir := fun _ => []
    csvRows := []
    risLines := []
    fetch := fun _ => none
    embed := fun _ => []
    embedQuery := fun _ => []
    jsonMeta := fun _ => ""
    genAnswer := fun _ _ => "" }

/-- A concrete environment whose identifier directory holds only a text
file while the CSV row carries one PDF URL. -/
def envTxtOnly : RagEnv :=
  { envEmpty with
    isdir := fun _ => true
    listdir := fun _ => ["consent.txt"]
    csvRows := [⟨"NCT1", "u", "https://x.org/a.pdf", "t"⟩] }

/-- A concrete environment with one local PDF whose fetch succeeds. -/
def envOnePdf : RagEnv :=
  { envEmpty with
    isdir := fun _ => true
    listdir := fun _ => ["a.pdf"]
    fetch := fun _ => some "hello" }

end Trials

namespace Trials

theorem pyUpper_isDigit (c : Char) : (pyUpper c).isDigit = c.isDigit := by
  unfold pyUpper
  split <;> rfl

theorem pyUpper_of_isDigit (c : Char) (h : c.isDigit = true) : pyUpper c = c := by
  unfold pyUpper
  split <;> first | rfl | (rename_i hh; simp_all)

theorem isPySpace_not_digit (c : Char) (h : isPySpace c = true) : c.isDigit = false := by
  unfold isPySpace at h
  simp only [Bool.or_eq_true, beq_iff_eq] at h
  rcases h with ((((h | h) | h) | h) | h) | h <;> subst h <;> decide

theorem digit_not_space (c : Char) (h : c.isDigit = true) : isPySpace c = false := by
  by_contra hc
  simp only [Bool.not_eq_false] at hc
  rw [isPySpace_not_digit c hc] at h
  exact absurd h (by decide)

theorem filter_isDigit_map_pyUpper (l : List Char) :
    (l.map pyUpper).filter Char.isDigit = l.filter Char.isDigit := by
  induction l with
  | nil => rfl
  | cons c rest ih =>
    simp only [List.map_cons, List.filter_cons, pyUpper_isDigit]
    by_cases h : c.isDigit = true
    · simp [h, pyUpper_of_isDigit c h, ih]
    · simp only [Bool.not_eq_true] at h
      simp [h, ih]

theorem filter_isDigit_dropWhile (q : Char → Bool)
    (hq : ∀ c, q c = true → c.isDigit = false) (l : List Char) :
    (l.dropWhile q).filter Char.isDigit = l.filter Char.isDigit := by
  induction l with
  | nil => rfl
  | cons c rest ih =>
    by_cases h : q c = true
    · rw [List.dropWhile_cons_of_pos h, ih, List.filter_cons, hq c h]
      simp
    · simp only [Bool.not_eq_true] at h
      rw [List.dropWhile_cons_of_neg (by simp [h])]

theorem filter_isDigit_pyStrip (l : List Char) :
    (pyStrip l).filter Char.isDigit = l.filter Char.isDigit := by
  unfold pyStrip
  rw [List.filter_reverse, filter_isDigit_dropWhile isPySpace isPySpace_not_digit,
    List.filter_reverse, List.reverse_reverse,
    filter_isDigit_dropWhile isPySpace isPySpace_not_digit]

theorem removeNCT_cons_ne (c : Char) (rest : List Char)
    (hc : ∀ rest2, c = 'N' → rest = 'C' :: 'T' :: rest2 → False) :
    removeNCT (c :: rest) = c :: removeNCT rest := by
  rw [removeNCT.eq_def]
  split
  · rename_i rest2 heq
    exact absurd heq (by intro hh; injection hh with h1 h2; exact hc rest2 h1 h2)
  · rename_i c2 rest2 heq
    injection heq with h1 h2
    subst h1
    subst h2
    rfl
  · rename_i heq
    exact absurd heq (by simp)

theorem filter_isDigit_removeNCT (l : List Char) :
    (removeNCT l).filter Char.isDigit = l.filter Char.isDigit := by
  induction l using removeNCT.induct with
  | case1 rest ih =>
    rw [removeNCT, ih]
    rfl
  | case2 c rest hc ih =>
    rw [removeNCT_cons_ne c rest hc, List.filter_cons, List.filter_cons, ih]
  | case3 => rfl

theorem digitsOf_all (l : List Char) : ∀ c ∈ digitsOf l, c.isDigit = true := by
  intro c hc
  exact List.of_mem_filter hc

theorem pyZfill_of_digits (s : List Char) (hs : ∀ c ∈ s, c.isDigit = true) :
    pyZfill 8 s = List.replicate (8 - s.length) '0' ++ s := by
  unfold pyZfill
  by_cases h : 8 ≤ s.length
  · rw [if_pos h]
    have : 8 - s.length = 0 := by omega
    rw [this, List.replicate_zero, List.nil_append]
  · rw [if_neg h]
    cases s with
    | nil => simp
    | cons c rest =>
      have hd := hs c (by simp)
      have hpm : ¬ (c = '+' ∨ c = '-') := by
        rintro (h2 | h2) <;> subst h2 <;> exact absurd hd (by decide)
      change (if c = '+' ∨ c = '-' then c :: (List.replicate (8 - (c :: rest).length) '0' ++ rest)
        else List.replicate (8 - (c :: rest).length) '0' ++ c :: rest) = _
      rw [if_neg hpm]

theorem pyZfill_all_digits (s : List Char) (hs : ∀ c ∈ s, c.isDigit = true) :
    ∀ c ∈ pyZfill 8 s, c.isDigit = true := by
  rw [pyZfill_of_digits s hs]
  intro c hc
  rcases List.mem_append.1 hc with h | h
  · rw [List.eq_of_mem_replicate h]
    decide
  · exact hs c h

theorem pyZfill_length (s : List Char) (hs : ∀ c ∈ s, c.isDigit = true) :
    (pyZfill 8 s).length = max 8 s.length := by
  rw [pyZfill_of_digits s hs]
  simp only [List.length_append, List.length_replicate]
  omega

theorem normalizeNctL_digits (l : List Char) :
    normalizeNctL l = 'N' :: 'C' :: 'T' :: pyZfill 8 (digitsOf l) := by
  unfold normalizeNctL digitsOf
  rw [filter_isDigit_removeNCT, filter_isDigit_map_pyUpper, filter_isDigit_pyStrip]

theorem dropWhile_eq_self_of_none (q : Char → Bool) (l : List Char)
    (h : ∀ c ∈ l, q c = false) : l.dropWhile q = l := by
  match l with
  | [] => rfl
  | c :: rest => rw [List.dropWhile_cons_of_neg (by simp [h c (by simp)])]

theorem pyStrip_eq_self_of_nonspace (l : List Char)
    (h : ∀ c ∈ l, isPySpace c = false) : pyStrip l = l := by
  unfold pyStrip
  rw [dropWhile_eq_self_of_none isPySpace l h,
    dropWhile_eq_self_of_none isPySpace l.reverse (by intro c hc; exact h c (List.mem_reverse.1 hc)),
    List.reverse_reverse]

theorem removeNCT_of_all_digits (l : List Char) (h : ∀ c ∈ l, c.isDigit = true) :
    removeNCT l = l := by
  induction l using removeNCT.induct with
  | case1 rest ih =>
    exact absurd (h 'N' (by simp)) (by decide)
  | case2 c rest hc ih =>
    rw [removeNCT_cons_ne c rest hc, ih (fun c2 hc2 => h c2 (by simp [hc2]))]
  | case3 => rfl

theorem normalizeNctL_idem (l : List Char) :
    normalizeNctL (normalizeNctL l) = normalizeNctL l := by
  rw [normalizeNctL_digits l]
  set z := pyZfill 8 (digitsOf l) with hz
  have hzd : ∀ c ∈ z, c.isDigit = true := pyZfill_all_digits _ (digitsOf_all l)
  have hall : ∀ c ∈ 'N' :: 'C' :: 'T' :: z, isPySpace c = false := by
    intro c hc
    simp only [List.mem_cons] at hc
    rcases hc with rfl | rfl | rfl | hc
    · decide
    · decide
    · decide
    · exact digit_not_space c (hzd c hc)
  unfold normalizeNctL
  rw [pyStrip_eq_self_of_nonspace _ hall]
  have hmap : List.map pyUpper ('N' :: 'C' :: 'T' :: z) = 'N' :: 'C' :: 'T' :: z := by
    simp only [List.map_cons]
    rw [List.map_congr_left (fun c hc => pyUpper_of_isDigit c (hzd c hc))]
    rw [List.map_id_fun']
    rfl
  rw [hmap]
  have hrm : removeNCT ('N' :: 'C' :: 'T' :: z) = z := by
    rw [removeNCT]
    exact removeNCT_of_all_digits z hzd
  rw [hrm]
  rw [List.filter_eq_self.2 hzd]
  have hlen : 8 ≤ z.length := by
    rw [hz, pyZfill_length _ (digitsOf_all l)]
    omega
  unfold pyZfill
  rw [if_pos hlen]

/-- Claim C5, amended: `normalize_nct` is total and always returns the
`NCT` prefix followed by the input's digit subsequence zero-padded to width
at least 8 (suffix all digits, total length `3 + max 8 d`); the result
matches `NCT` plus exactly eight digits precisely when the input contains at
most eight digits. -/
theorem c5_theorem (x : String) :
    (normalize_nct x).data = 'N' :: 'C' :: 'T' :: pyZfill 8 (digitsOf x.data) ∧
    (∀ c ∈ (normalize_nct x).data.drop 3, c.isDigit = true) ∧
    (normalize_nct x).data.length = 3 + max 8 (digitsOf x.data).length ∧
    (matchesNCT8 (normalize_nct x) = true ↔ (digitsOf x.data).length ≤ 8) := by
  have hdata : (normalize_nct x).data = 'N' :: 'C' :: 'T' :: pyZfill 8 (digitsOf x.data) := by
    unfold normalize_nct
    rw [normalizeNctL_digits]
  have hall := pyZfill_all_digits (digitsOf x.data) (digitsOf_all x.data)
  have hlen := pyZfill_length (digitsOf x.data) (digitsOf_all x.data)
  refine ⟨hdata, ?_, ?_, ?_⟩
  · intro c hc
    rw [hdata] at hc
    simp only [List.drop_succ_cons, List.drop_zero] at hc
    exact hall c hc
  · rw [hdata]
    simp only [List.length_cons, hlen]
    omega
  · unfold matchesNCT8
    rw [hdata]
    simp only [List.length_cons, List.take_succ_cons, List.take_zero,
      List.drop_succ_cons, List.drop_zero, Bool.and_eq_true, decide_eq_true_eq,
      List.all_eq_true]
    constructor
    · rintro ⟨⟨h1, _⟩, _⟩
      omega
    · intro h
      refine ⟨⟨by omega, by simp⟩, fun c hc => hall c hc⟩

/-- Witness for C5 at a concrete input. -/
theorem c5_witness :
    ('1' ∈ (normalize_nct "1").data.drop 3 ∧ Char.isDigit '1' = true) :=
  ⟨by decide, ( c5_theorem "1").2.1 '1' (by decide)⟩

/-- Claim C5 as stated fails: an input with nine digits yields a nine-digit
suffix, so the result does not match the fixed prefix plus exactly eight
digits. -/
theorem c5_counterexample : matchesNCT8 (normalize_nct "123456789") = false := by decide

/-- Claim C9: normalization is idempotent, depends only on the digit
subsequence of the input (hence is invariant under case, whitespace and
prefix-repetition changes, none of which touch digits), and identifies the
three sample spellings. -/
theorem c9_theorem :
    (∀ x : String, normalize_nct (normalize_nct x) = normalize_nct x) ∧
    (∀ x y : String, digitsOf x.data = digitsOf y.data → normalize_nct x = normalize_nct y) ∧
    normalize_nct "nct4019" = normalize_nct "NCT 4019" ∧
    normalize_nct "NCT 4019" = normalize_nct "nct00004019" := by
  refine ⟨?_, ?_, by decide, by decide⟩
  · intro x
    unfold normalize_nct
    simp only [String.data]
    rw [normalizeNctL_idem]
  · intro x y h
    unfold normalize_nct
    rw [normalizeNctL_digits, normalizeNctL_digits, h]

/-- Witness for C9 at two concrete inputs with equal digit subsequences. -/
theorem c9_witness :
    digitsOf "a1".data = digitsOf "1b".data ∧ normalize_nct "a1" = normalize_nct "1b" :=
  ⟨by decide, c9_theorem.2.1 "a1" "1b" (by decide)⟩

end Trials

namespace Trials

theorem foldl_loadRis_inv (lines : List (List Char)) (st : List (String × SrvMeta) × Dict)
    (h : ∀ kv ∈ st.1, ∃ rec, kv.2 = mkSrvMeta rec) :
    ∀ kv ∈ (lines.foldl loadRisStep st).1, ∃ rec, kv.2 = mkSrvMeta rec := by
  induction lines generalizing st with
  | nil => exact h
  | cons ln rest ih =>
    rw [List.foldl_cons]
    apply ih
    intro kv hkv
    simp only [loadRisStep] at hkv
    split at hkv
    · exact h kv hkv
    · split at hkv
      · split at hkv
        · rename_i idv heq
          rcases List.mem_cons.1 hkv with hkv | hkv
          · exact ⟨st.2, by rw [hkv]⟩
          · exact h kv (List.mem_filter.1 hkv).1
        · exact h kv hkv
      · exact h kv hkv

theorem load_ris_shape (lines : List (List Char)) :
    ∀ kv ∈ load_ris lines, ∃ rec, kv.2 = mkSrvMeta rec := by
  intro kv hkv
  simp only [load_ris] at hkv
  split at hkv
  · rename_i idv heq
    rcases List.mem_cons.1 hkv with hkv | hkv
    · exact ⟨(lines.foldl loadRisStep ([], [])).2, by rw [hkv]⟩
    · exact foldl_loadRis_inv lines ([], []) (by simp) kv (List.mem_filter.1 hkv).1
  · exact foldl_loadRis_inv lines ([], []) (by simp) kv hkv

theorem foldl_parseRis_inv (lines : List (List Char)) (st : List (String × DlMeta) × Dict)
    (h : ∀ kv ∈ st.1, ∃ rec, kv.2 = mkDlMeta rec) :
    ∀ kv ∈ (lines.foldl parseRisStep st).1, ∃ rec, kv.2 = mkDlMeta rec := by
  induction lines generalizing st with
  | nil => exact h
  | cons ln rest ih =>
    rw [List.foldl_cons]
    apply ih
    intro kv hkv
    simp only [parseRisStep] at hkv
    split at hkv
    · exact h kv hkv
    · split at hkv
      · split at hkv
        · rename_i idv heq
          rcases List.mem_cons.1 hkv with hkv | hkv
          · exact ⟨st.2, by rw [hkv]⟩
          · exact h kv (List.mem_filter.1 hkv).1
        · exact h kv hkv
      · exact h kv hkv

theorem parse_ris_shape (lines : List (List Char)) :
    ∀ kv ∈ parse_ris lines, ∃ rec, kv.2 = mkDlMeta rec := by
  intro kv hkv
  simp only [parse_ris] at hkv
  split at hkv
  · rename_i idv heq
    rcases List.mem_cons.1 hkv with hkv | hkv
    · exact ⟨(lines.foldl parseRisStep ([], [])).2, by rw [hkv]⟩
    · exact foldl_parseRis_inv lines ([], []) (by simp) kv (List.mem_filter.1 hkv).1
  · exact foldl_parseRis_inv lines ([], []) (by simp) kv hkv

/-- Claim C2, amended: every value flushed by either bibliographic parser
comes from some accumulated tag record, with title the value of `TI` and
year the value of `PY` (empty when absent) in both parsers; the downloader's
parser stores as author the substring of `AU` before its first comma, while
the server's parser stores the whole `AU` value as a one-element author list
(empty list when `AU` is absent or empty), not the pre-comma substring. -/
theorem c2_theorem :
    (∀ lines : List (List Char), ∀ kv ∈ load_ris lines, ∃ rec : Dict,
      kv.2.title = String.mk ((dget rec ['T', 'I']).getD []) ∧
      kv.2.year = String.mk ((dget rec ['P', 'Y']).getD []) ∧
      kv.2.authors = (match dget rec ['A', 'U'] with
        | some a => if a = [] then [] else [String.mk a]
        | none => [])) ∧
    (∀ lines : List (List Char), ∀ kv ∈ parse_ris lines, ∃ rec : Dict,
      kv.2.title = String.mk ((dget rec ['T', 'I']).getD []) ∧
      kv.2.year = String.mk ((dget rec ['P', 'Y']).getD []) ∧
      kv.2.author = String.mk (List.takeWhile (fun c => !(c == ','))
        ((dget rec ['A', 'U']).getD []))) := by
  constructor
  · intro lines kv hkv
    obtain ⟨rec, hrec⟩ := load_ris_shape lines kv hkv
    exact ⟨rec, by rw [hrec]; rfl, by rw [hrec]; rfl, by rw [hrec]; rfl⟩
  · intro lines kv hkv
    obtain ⟨rec, hrec⟩ := parse_ris_shape lines kv hkv
    exact ⟨rec, by rw [hrec]; rfl, by rw [hrec]; rfl, by rw [hrec]; rfl⟩

/-- Witness for C2 on a concrete five-line stream. -/
theorem c2_witness :
    (("NCT00000001", SrvMeta.mk "T" "2020" ["Smith, John"]) ∈
      load_ris ["TY  - JOUR".data, "ID  - NCT1".data, "AU  - Smith, John".data,
        "TI  - T".data, "PY  - 2020".data]) ∧
    (∃ rec : Dict,
      (SrvMeta.mk "T" "2020" ["Smith, John"]).title = String.mk ((dget rec ['T', 'I']).getD []) ∧
      (SrvMeta.mk "T" "2020" ["Smith, John"]).year = String.mk ((dget rec ['P', 'Y']).getD []) ∧
      (SrvMeta.mk "T" "2020" ["Smith, John"]).authors = (match dget rec ['A', 'U'] with
        | some a => if a = [] then [] else [String.mk a]
        | none => [])) :=
  ⟨by decide,
    c2_theorem.1 ["TY  - JOUR".data, "ID  - NCT1".data, "AU  - Smith, John".data,
      "TI  - T".data, "PY  - 2020".data]
      ("NCT00000001", SrvMeta.mk "T" "2020" ["Smith, John"]) (by decide)⟩

/-- Claim C2 as stated fails on the server parser: with `AU` equal to
`Smith, John` the flushed record stores the whole value, and the whole value
differs from the pre-comma substring `Smith`. -/
theorem c2_counterexample :
    List.lookup "NCT00000001"
      (load_ris ["TY  - JOUR".data, "ID  - NCT1".data, "AU  - Smith, John".data,
        "TI  - T".data, "PY  - 2020".data]) =
      some (SrvMeta.mk "T" "2020" ["Smith, John"]) ∧
    String.mk (List.takeWhile (fun c => !(c == ',')) ("Smith, John".data)) = "Smith" ∧
    (["Smith, John"] : List String) ≠ ["Smith"] := by
  refine ⟨by decide, by decide, by decide⟩

end Trials

namespace Trials

theorem ciStartsWith_of_take (pat l : List Char) (m : Nat)
    (h : ciStartsWith pat (l.take m) = true) : ciStartsWith pat l = true := by
  unfold ciStartsWith at h ⊢
  rw [List.isPrefixOf_iff_prefix] at h ⊢
  rw [List.map_take] at h
  exact h.trans (List.take_prefix m (l.map pyLower))

theorem ciStartsWith_take (pat l : List Char) (m : Nat)
    (h : ciStartsWith pat l = true) (hm : pat.length ≤ m) :
    ciStartsWith pat (l.take m) = true := by
  unfold ciStartsWith at h ⊢
  rw [List.isPrefixOf_iff_prefix] at h ⊢
  rw [List.map_take, List.prefix_take_iff]
  exact ⟨h, by simpa using hm⟩

theorem ciStartsWith_ne_nil (pat l : List Char) (hp : pat ≠ [])
    (h : ciStartsWith pat l = true) : l ≠ [] := by
  intro hl
  subst hl
  unfold ciStartsWith at h
  rw [List.isPrefixOf_iff_prefix] at h
  simp only [List.map_nil, List.prefix_nil] at h
  exact hp h

theorem matchAt_take (l : List Char) (n : Nat) (h : matchAt l = some n) :
    ciStartsWith ['h', 't', 't', 'p'] (l.take n) = true ∧ l.take n ≠ [] := by
  unfold matchAt at h
  split at h
  · rename_i h4
    have key : ∀ m : Nat, 4 ≤ m →
        ciStartsWith ['h', 't', 't', 'p'] (l.take m) = true ∧ l.take m ≠ [] := by
      intro m hm
      have hpre : ciStartsWith ['h', 't', 't', 'p'] l = true :=
        ciStartsWith_of_take _ l 4 h4
      refine ⟨ciStartsWith_take _ l m hpre (by simpa using hm), ?_⟩
      have hlne : l ≠ [] := ciStartsWith_ne_nil _ l (by simp) hpre
      simp only [ne_eq, List.take_eq_nil_iff]
      push_neg
      exact ⟨by omega, hlne⟩
    simp only at h
    generalize (if ciStartsWith ['s'] ((l.drop 4).take 1) = true then 5 else 4) = pre at h
    split at h
    · split at h
      · rename_i bn hbn
        injection h with hn
        exact hn ▸ key _ (by omega)
      · exact absurd h (by simp)
    · exact absurd h (by simp)
  · exact absurd h (by simp)

theorem findAllAux_shape (l : List Char) (k : Nat) (u : List Char)
    (hu : u ∈ findAllAux l k) : ∃ l2 n, matchAt l2 = some n ∧ u = l2.take n := by
  induction l generalizing k with
  | nil => simp [findAllAux] at hu
  | cons c rest ih =>
    match k with
    | skip + 1 => exact ih skip hu
    | 0 =>
      rw [findAllAux.eq_def] at hu
      simp only at hu
      split at hu
      · rename_i n hn
        rcases List.mem_cons.1 hu with rfl | hu
        · exact ⟨c :: rest, n, hn, rfl⟩
        · exact ih (n - 1) hu
      · exact ih 0 hu

theorem findAllUrls_shape (l u : List Char) (hu : u ∈ findAllUrls l) :
    ciStartsWith ['h', 't', 't', 'p'] u = true ∧ u ≠ [] := by
  obtain ⟨l2, n, hm, rfl⟩ := findAllAux_shape l 0 u hu
  obtain ⟨h1, h2⟩ := matchAt_take l2 n hm
  exact ⟨h1, h2⟩

/-- Claim C3, amended: every pair produced by the extractor has a non-empty
URL that begins, case-insensitively, with the four characters `http` (the
comma-fallback branch checks no more than that, so a full `http(s)://`
scheme is not guaranteed); and for every segment of the cell, each URL-regex
match whose preceding text strips to nothing is emitted with the placeholder
label `Document` (the comma-fallback branch instead keeps its possibly empty
trimmed prefix as the label). -/
theorem c3_theorem :
    (∀ cell : List Char, ∀ pr ∈ extract_pairs cell,
      pr.2 ≠ [] ∧ ciStartsWith ['h', 't', 't', 'p'] pr.2 = true) ∧
    (∀ cell : List Char,
      ¬(cell = [] ∨ (pyStrip cell).map pyLower = ['n', 'a', 'n'] ∨
        (pyStrip cell).map pyLower = ['n', 'o', 'n', 'e']) →
      ∀ p ∈ ((splitOnChar '|' cell).map pyStrip).filter (fun q => decide (q ≠ [])),
      ∀ u ∈ findAllUrls p,
      stripCommas (pyStrip (beforeFirst p u)) = [] →
      (['D', 'o', 'c', 'u', 'm', 'e', 'n', 't'], u) ∈ extract_pairs cell) := by
  constructor
  · intro cell pr hpr
    unfold extract_pairs at hpr
    split at hpr
    · exact absurd hpr (by simp)
    · rcases List.mem_flatMap.1 hpr with ⟨p, hp, hin⟩
      simp only at hin
      split at hin
      · rename_i hurls
        rcases List.mem_map.1 hin with ⟨u, hu, rfl⟩
        have := findAllUrls_shape p u hu
        exact ⟨this.2, this.1⟩
      · split at hin
        · split at hin
          · rename_i hcomma hhttp
            rcases List.mem_singleton.1 hin with rfl
            have h2 : pyStrip (List.drop ((List.takeWhile (fun c => !(c == ',')) p).length + 1) p) ≠ [] := by
              intro hnil
              rw [hnil] at hhttp
              exact absurd hhttp (by decide)
            exact ⟨h2, ciStartsWith_of_take _ _ 4 hhttp⟩
          · exact absurd hin (by simp)
        · exact absurd hin (by simp)
  · intro cell hcell p hp u hu hlabel
    unfold extract_pairs
    rw [if_neg hcell]
    refine List.mem_flatMap.2 ⟨p, hp, ?_⟩
    simp only
    rw [if_pos (List.ne_nil_of_mem hu)]
    refine List.mem_map.2 ⟨u, hu, ?_⟩
    rw [hlabel]
    rfl

/-- Witness for C3 on a labelless segment: the single regex match of the
spec example is emitted with the placeholder label. -/
theorem c3_witness :
    ("https://x.org/a.pdf".data ∈ findAllUrls ("https://x.org/a.pdf".data)) ∧
    (['D', 'o', 'c', 'u', 'm', 'e', 'n', 't'], "https://x.org/a.pdf".data) ∈
      extract_pairs ("https://x.org/a.pdf".data) :=
  ⟨by decide,
    c3_theorem.2 ("https://x.org/a.pdf".data) (by decide) ("https://x.org/a.pdf".data) (by decide)
      ("https://x.org/a.pdf".data) (by decide) (by decide)⟩

/-- Claim C3 as stated fails: the comma-fallback branch accepts a URL that
merely starts with `http` (no scheme separator), and emits it with an empty
label rather than the placeholder `Document`, even though the segment has no
descriptive prefix text. -/
theorem c3_counterexample :
    extract_pairs (", httpx".data) = [(([] : List Char), ['h', 't', 't', 'p', 'x'])] ∧
    ¬(ciStartsWith ("http://".data) ['h', 't', 't', 'p', 'x'] = true ∨
      ciStartsWith ("https://".data) ['h', 't', 't', 'p', 'x'] = true) ∧
    ([] : List Char) ≠ ['D', 'o', 'c', 'u', 'm', 'e', 'n', 't'] := by
  refine ⟨by decide, by decide, by decide⟩

end Trials

namespace Trials

theorem pyStrip_eq_rdrop (l : List Char) :
    pyStrip l = List.rdropWhile isPySpace (List.dropWhile isPySpace l) := rfl

theorem dropWhile_pyStrip (l : List Char) :
    List.dropWhile isPySpace (pyStrip l) = pyStrip l := by
  rw [pyStrip_eq_rdrop]
  cases hr : List.rdropWhile isPySpace (List.dropWhile isPySpace l) with
  | nil => rfl
  | cons c t =>
    have hpre : List.rdropWhile isPySpace (List.dropWhile isPySpace l) <+:
        List.dropWhile isPySpace l := List.rdropWhile_prefix _ _
    rw [hr] at hpre
    obtain ⟨s, hs⟩ := hpre
    have hh : (List.dropWhile isPySpace l).head? = some c := by
      rw [← hs]
      rfl
    have hm := List.head?_dropWhile_not isPySpace l
    rw [hh] at hm
    have h2 : isPySpace c = false := hm
    rw [List.dropWhile_cons_of_neg (by simp [h2])]

theorem pyStrip_idem (l : List Char) : pyStrip (pyStrip l) = pyStrip l := by
  rw [pyStrip_eq_rdrop (pyStrip l), dropWhile_pyStrip l, pyStrip_eq_rdrop l,
    List.rdropWhile_idempotent, ← pyStrip_eq_rdrop]

theorem infix_pyStrip (l : List Char) : pyStrip l <:+: l := by
  rw [pyStrip_eq_rdrop]
  exact (List.rdropWhile_prefix _ _).isInfix.trans (List.dropWhile_suffix _).isInfix

theorem infix_pySlice (s : List Char) (i : Nat) (stop : Int) : pySlice s i stop <:+: s := by
  unfold pySlice
  exact ((List.take_prefix _ _).isInfix).trans ((List.drop_suffix _ _).isInfix)

theorem chunkStep_pos (cc ov : Int) : 1 ≤ (max 1 (cc - ov)).toNat := by
  have h1 : (1 : Int) ≤ max 1 (cc - ov) := le_max_left _ _
  omega

theorem infix_of_mem_chunkLoop (s : List Char) (cc ov : Int) (i : Nat) :
    ∀ c ∈ chunkLoop s cc ov i, c <:+: s := by
  induction i using chunkLoop.induct s cc ov with
  | case1 i hi ih =>
    intro c hc
    rw [chunkLoop, if_pos hi] at hc
    rcases List.mem_cons.1 hc with rfl | hc
    · exact infix_pySlice s i _
    · exact ih c hc
  | case2 i hi =>
    intro c hc
    rw [chunkLoop, if_neg hi] at hc
    exact absurd hc (by simp)

theorem chunkLoop_length (s : List Char) (cc ov : Int) (i : Nat) :
    (chunkLoop s cc ov i).length ≤ s.length - i := by
  induction i using chunkLoop.induct s cc ov with
  | case1 i hi ih =>
    rw [chunkLoop, if_pos hi]
    have := chunkStep_pos cc ov
    simp only [List.length_cons]
    omega
  | case2 i hi =>
    rw [chunkLoop, if_neg hi]
    simp

/-- Claim C10: for every input and all window and overlap parameters,
including overlap at least window, the chunker is total with at most one
window per character of the normalized text (the loop advances by at least
one each iteration), and every chunk it returns is a non-empty, trimmed
(strip-idempotent) infix of the normalized text. -/
theorem c10_theorem (s : List Char) (cc ov : Int) :
    (∀ c ∈ chunk_text s cc ov, c ≠ [] ∧ pyStrip c = c ∧ c <:+: sub2 (sub1 s)) ∧
    (chunk_text s cc ov).length ≤ (sub2 (sub1 s)).length := by
  constructor
  · intro c hc
    unfold chunk_text at hc
    rcases List.mem_filter.1 hc with ⟨hmem, hne⟩
    rcases List.mem_map.1 hmem with ⟨w, hw, rfl⟩
    exact ⟨by simpa using hne, pyStrip_idem w,
      (infix_pyStrip w).trans (infix_of_mem_chunkLoop _ _ _ _ w hw)⟩
  · unfold chunk_text
    have h1 := List.length_filter_le (fun c => decide (c ≠ []))
      ((chunkLoop (sub2 (sub1 s)) cc ov 0).map pyStrip)
    have h2 := chunkLoop_length (sub2 (sub1 s)) cc ov 0
    simp only [List.length_map] at h1
    omega

theorem chunk_text_demo : chunk_text "ab cd".data 3 1 = ["ab".data, "cd".data, "d".data] := by
  have hs2 : sub2 (sub1 "ab cd".data) = ['a', 'b', ' ', 'c', 'd'] := by decide
  unfold chunk_text
  rw [hs2]
  rw [chunkLoop]
  norm_num
  rw [chunkLoop]
  norm_num
  rw [chunkLoop]
  norm_num
  rw [chunkLoop]
  norm_num
  decide

/-- Witness for C10 at a concrete input: the first chunk of a five-character
text with window 3 and overlap 1. -/
theorem c10_witness :
    "ab".data ∈ chunk_text "ab cd".data 3 1 ∧
    ("ab".data ≠ [] ∧ pyStrip "ab".data = "ab".data ∧
      "ab".data <:+: sub2 (sub1 "ab cd".data)) :=
  ⟨by rw [chunk_text_demo]; decide,
    ( c10_theorem "ab cd".data 3 1).1 ("ab".data) (by rw [chunk_text_demo]; decide)⟩

end Trials

namespace Trials

/-- Claim C8: for a remote source the transient artifact is removed on
every exit path, and the no-temp-file paths (failed retrieval, local
source) create nothing; so every created temporary file is unlinked in the
same call, whatever the oracles do. -/
theorem c8_theorem (pathOrUrl tmpName : String) (fetchRes : Option String)
    (extractDoc : String → Option String) :
    (∀ f, FsEvent.create f ∈ (read_pdf_text_fs pathOrUrl tmpName fetchRes extractDoc).2 →
      FsEvent.unlink f ∈ (read_pdf_text_fs pathOrUrl tmpName fetchRes extractDoc).2) ∧
    (fetchRes = none → (read_pdf_text_fs pathOrUrl tmpName fetchRes extractDoc).2 = []) ∧
    (ciStartsWith ['h', 't', 't', 'p'] pathOrUrl.data = false →
      (read_pdf_text_fs pathOrUrl tmpName fetchRes extractDoc).2 = []) := by
  refine ⟨?_, ?_, ?_⟩
  · intro f hf
    unfold read_pdf_text_fs at hf ⊢
    by_cases hurl : ciStartsWith ['h', 't', 't', 'p'] pathOrUrl.data = true
    · rw [if_pos hurl] at hf ⊢
      match fetchRes with
      | none => exact absurd hf (by simp)
      | some content =>
        match hx : extractDoc content with
        | some txt =>
          simp only [hx] at hf ⊢
          simp only [List.mem_cons, List.not_mem_nil, or_false] at hf ⊢
          rcases hf with hf | hf
          · injection hf with h1
            subst h1
            right
            rfl
          · exact absurd hf (by intro hh; cases hh)
        | none =>
          simp only [hx] at hf ⊢
          simp only [List.mem_cons, List.not_mem_nil, or_false] at hf ⊢
          rcases hf with hf | hf
          · injection hf with h1
            subst h1
            right
            rfl
          · exact absurd hf (by intro hh; cases hh)
    · rw [if_neg hurl] at hf ⊢
      exact absurd hf (by simp)
  · intro hfr
    subst hfr
    unfold read_pdf_text_fs
    split
    · rfl
    · rfl
  · intro hurl
    unfold read_pdf_text_fs
    rw [if_neg (by simp [hurl])]

/-- Witness for C8 on a remote fetch whose extraction raises: the created
temporary file is unlinked. -/
theorem c8_witness :
    (FsEvent.create "/tmp/t.pdf" ∈
      (read_pdf_text_fs "http://x" "/tmp/t.pdf" (some "B") (fun _ => none)).2) ∧
    FsEvent.unlink "/tmp/t.pdf" ∈
      (read_pdf_text_fs "http://x" "/tmp/t.pdf" (some "B") (fun _ => none)).2 :=
  ⟨by decide,
    ( c8_theorem "http://x" "/tmp/t.pdf" (some "B") (fun _ => none)).1 "/tmp/t.pdf" (by decide)⟩

end Trials
namespace Trials

theorem ciEndsWith_append (pat : List Char) (x y : List Char)
    (h : ciEndsWith pat y = true) : ciEndsWith pat (x ++ y) = true := by
  unfold ciEndsWith at h ⊢
  rw [List.isPrefixOf_iff_prefix] at h ⊢
  rw [List.map_append, List.reverse_append]
  exact h.trans (List.prefix_append _ _)

theorem get_local_pdfs_pdf (env : RagEnv) (nct : String) :
    ∀ p ∈ get_local_pdfs env nct, ciEndsWith ['.', 'p', 'd', 'f'] p.data = true := by
  intro p hp
  unfold get_local_pdfs at hp
  split at hp
  · rcases List.mem_map.1 hp with ⟨f, hf, rfl⟩
    have hpdf := (List.mem_filter.1 hf).2
    have : (nctFolder nct ++ "/" ++ f).data = (nctFolder nct ++ "/").data ++ f.data := by
      rw [← String.data_append]
    rw [this]
    exact ciEndsWith_append _ _ _ hpdf
  · exact absurd hp (by simp)

/-- Claim C4, amended: on a cache miss the build attempts exactly the first
five selected sources, in order; the selected sources are the local
directory entries whose lower-cased names end in `.pdf` (joined onto the
folder) whenever any such entry exists, the cell-derived URL list otherwise;
every local candidate therefore carries a `.pdf` suffix, so non-PDF files in
the identifier directory are not candidates and do not suppress the URL
fallback. -/
theorem c4_theorem (env : RagEnv) (cache : List (String × CtxEntry)) (nct : String)
    (hmiss : List.lookup nct cache = none) :
    (build_context_for_nct env cache nct).attempted = (buildSources env nct).take 5 ∧
    (build_context_for_nct env cache nct).attempted.length ≤ 5 ∧
    (build_context_for_nct env cache nct).attempted <+: buildSources env nct ∧
    (get_local_pdfs env nct ≠ [] →
      (build_context_for_nct env cache nct).attempted = (get_local_pdfs env nct).take 5 ∧
      ∀ a ∈ (build_context_for_nct env cache nct).attempted, a ∈ get_local_pdfs env nct) ∧
    (get_local_pdfs env nct = [] →
      (build_context_for_nct env cache nct).attempted =
        ((match csvGet env nct with | some c => c.docs | none => []).map Prod.snd).take 5) ∧
    ((buildSources env nct).length ≤ 5 →
      (build_context_for_nct env cache nct).attempted = buildSources env nct) ∧
    (∀ p ∈ get_local_pdfs env nct, ciEndsWith ['.', 'p', 'd', 'f'] p.data = true) ∧
    (build_context_for_nct env cache nct).fetchCalls =
      (build_context_for_nct env cache nct).attempted.length := by
  have hatt : (build_context_for_nct env cache nct).attempted = (buildSources env nct).take 5 := by
    unfold build_context_for_nct
    rw [hmiss]
  have hcalls : (build_context_for_nct env cache nct).fetchCalls =
      (build_context_for_nct env cache nct).attempted.length := by
    unfold build_context_for_nct
    rw [hmiss]
  refine ⟨hatt, ?_, ?_, ?_, ?_, ?_, get_local_pdfs_pdf env nct, hcalls⟩
  · rw [hatt]
    exact List.length_take_le 5 _
  · rw [hatt]
    exact List.take_prefix 5 _
  · intro hlocal
    have hsrc : buildSources env nct = get_local_pdfs env nct := by
      unfold buildSources
      rw [if_pos hlocal]
    rw [hatt, hsrc]
    exact ⟨rfl, fun a ha => List.take_subset 5 _ ha⟩
  · intro hlocal
    have hsrc : buildSources env nct =
        (match csvGet env nct with | some c => c.docs | none => []).map Prod.snd := by
      unfold buildSources
      rw [if_neg (by simp [hlocal])]
    rw [hatt, hsrc]
  · intro hlen
    rw [hatt]
    exact List.take_of_length_le hlen

/-- Witness for C4: the empty environment misses the cache and selects no
sources. -/
theorem c4_witness :
    (List.lookup "NCT00000001" ([] : List (String × CtxEntry)) = none) ∧
    (build_context_for_nct envEmpty [] "NCT00000001").attempted =
      (buildSources envEmpty "NCT00000001").take 5 :=
  ⟨rfl, ( c4_theorem envEmpty [] "NCT00000001" rfl).1⟩

/-- Claim C4 as stated fails: a directory whose only entry is a text file
counts as having local files under the claim, yet the build ignores it and
falls back to the cell-derived URL. -/
theorem c4_counterexample :
    envTxtOnly.listdir (nctFolder "NCT00000001") = ["consent.txt"] ∧
    (build_context_for_nct envTxtOnly [] "NCT00000001").attempted = ["https://x.org/a.pdf"] ∧
    (build_context_for_nct envTxtOnly [] "NCT00000001").attempted ≠
      [nctFolder "NCT00000001" ++ "/consent.txt"] := by
  refine ⟨rfl, by decide, by decide⟩

end Trials
namespace Trials

/-- Claim C6: a cache hit is returned unchanged with no fetch work; after a
miss builds and stores an entry, an immediately following call for the same
identifier under an unchanged environment returns the identical entry and
cache with zero fetch attempts, the build work having happened exactly once
(one fetch attempt per selected source, at most five). -/
theorem c6_theorem (env : RagEnv) (cache : List (String × CtxEntry)) (nct : String) :
    (∀ e, List.lookup nct cache = some e →
      build_context_for_nct env cache nct = ⟨e, cache, 0, []⟩) ∧
    (List.lookup nct cache = none →
      (build_context_for_nct env (build_context_for_nct env cache nct).cache2 nct).entry =
        (build_context_for_nct env cache nct).entry ∧
      (build_context_for_nct env (build_context_for_nct env cache nct).cache2 nct).cache2 =
        (build_context_for_nct env cache nct).cache2 ∧
      (build_context_for_nct env (build_context_for_nct env cache nct).cache2 nct).fetchCalls = 0 ∧
      (build_context_for_nct env cache nct).fetchCalls =
        ((buildSources env nct).take 5).length) := by
  constructor
  · intro e he
    unfold build_context_for_nct
    rw [he]
  · intro hmiss
    set B := build_context_for_nct env cache nct with hB
    have hc2 : B.cache2 = (nct, B.entry) :: cache := by
      rw [hB]
      unfold build_context_for_nct
      rw [hmiss]
    have hhit : List.lookup nct B.cache2 = some B.entry := by
      rw [hc2]
      simp [List.lookup]
    have hsecond : build_context_for_nct env B.cache2 nct = ⟨B.entry, B.cache2, 0, []⟩ := by
      unfold build_context_for_nct
      rw [hhit]
    rw [hsecond]
    refine ⟨rfl, rfl, rfl, ?_⟩
    rw [hB]
    unfold build_context_for_nct
    rw [hmiss]

/-- Witness for C6: an environment with one local PDF, starting from the
empty cache. -/
theorem c6_witness :
    (List.lookup "NCT00000001" ([] : List (String × CtxEntry)) = none) ∧
    ((build_context_for_nct envOnePdf
        (build_context_for_nct envOnePdf [] "NCT00000001").cache2 "NCT00000001").entry =
      (build_context_for_nct envOnePdf [] "NCT00000001").entry ∧
    (build_context_for_nct envOnePdf
        (build_context_for_nct envOnePdf [] "NCT00000001").cache2 "NCT00000001").cache2 =
      (build_context_for_nct envOnePdf [] "NCT00000001").cache2 ∧
    (build_context_for_nct envOnePdf
        (build_context_for_nct envOnePdf [] "NCT00000001").cache2 "NCT00000001").fetchCalls = 0 ∧
    (build_context_for_nct envOnePdf [] "NCT00000001").fetchCalls =
      ((buildSources envOnePdf "NCT00000001").take 5).length) :=
  ⟨rfl, ( c6_theorem envOnePdf [] "NCT00000001").2 rfl⟩

/-- Claim C7: whenever the built context for the normalized identifier has
no chunks, the chat endpoint returns the fixed apologetic message with the
entry's metadata and performs zero generation-service calls. -/
theorem c7_theorem (env : RagEnv) (cache : List (String × CtxEntry)) (nctRaw question : String)
    (h : (build_context_for_nct env cache (normalize_nct nctRaw)).entry.chunks = []) :
    chat env cache nctRaw question =
      ⟨apologyMsg, (build_context_for_nct env cache (normalize_nct nctRaw)).entry.meta, 0,
        (build_context_for_nct env cache (normalize_nct nctRaw)).cache2⟩ := by
  unfold chat
  simp only
  rw [if_pos h]

/-- Witness for C7: the empty environment yields a chunkless context, and
the chat call answers apologetically with zero generation calls. -/
theorem c7_witness :
    ((build_context_for_nct envEmpty [] (normalize_nct "x")).entry.chunks = []) ∧
    chat envEmpty [] "x" "q" =
      ⟨apologyMsg, (build_context_for_nct envEmpty [] (normalize_nct "x")).entry.meta, 0,
        (build_context_for_nct envEmpty [] (normalize_nct "x")).cache2⟩ :=
  ⟨rfl, c7_theorem envEmpty [] "x" "q" rfl⟩

end Trials
namespace Trials

theorem argsortDesc_perm (s : List ℝ) : List.Perm (argsortDesc s) (List.range s.length) :=
  List.perm_insertionSort _ _

theorem argsortDesc_sorted (s : List ℝ) : List.Sorted (rankRel s) (argsortDesc s) :=
  List.sorted_insertionSort _ _

theorem simsOf_length (qv : List ℝ) (vecs : List (List ℝ)) :
    (simsOf qv vecs).length = vecs.length := by
  unfold simsOf
  rw [List.length_map]

/-- Claim C1, amended: with a non-empty chunk list and one vector per
chunk, `topk` returns the chunks at the first `k` indices of the stable
descending argsort of the stabilized similarity scores
`dot / (norm * norm + 1e-8)`: the result has `min k n` distinct in-range
indices, scores weakly dominate every unreturned chunk's score, and the
returned order is descending with ties broken by original chunk order. -/
theorem c1_theorem (embedFn : String → List ℝ) (query : String) (chunks : List String)
    (vecs : List (List ℝ)) (k : Nat) (hne : chunks ≠ []) (hlen : vecs.length = chunks.length) :
    topk embedFn query chunks vecs k =
      ((argsortDesc (simsOf (embedFn query) vecs)).take k).map (fun i => chunks.getD i "") ∧
    ((argsortDesc (simsOf (embedFn query) vecs)).take k).length = min k chunks.length ∧
    ((argsortDesc (simsOf (embedFn query) vecs)).take k).Nodup ∧
    (∀ i ∈ (argsortDesc (simsOf (embedFn query) vecs)).take k, i < chunks.length) ∧
    List.Pairwise
      (fun i j => (simsOf (embedFn query) vecs).getD j 0 < (simsOf (embedFn query) vecs).getD i 0 ∨
        ((simsOf (embedFn query) vecs).getD i 0 = (simsOf (embedFn query) vecs).getD j 0 ∧ i < j))
      ((argsortDesc (simsOf (embedFn query) vecs)).take k) ∧
    (∀ i ∈ (argsortDesc (simsOf (embedFn query) vecs)).take k,
      ∀ j < chunks.length, j ∉ (argsortDesc (simsOf (embedFn query) vecs)).take k →
        (simsOf (embedFn query) vecs).getD j 0 ≤ (simsOf (embedFn query) vecs).getD i 0) := by
  set s := simsOf (embedFn query) vecs with hs
  have hslen : s.length = chunks.length := by rw [hs, simsOf_length, hlen]
  have hperm : List.Perm (argsortDesc s) (List.range s.length) := argsortDesc_perm s
  have hsorted : List.Sorted (rankRel s) (argsortDesc s) := argsortDesc_sorted s
  have halen : (argsortDesc s).length = s.length := by
    rw [hperm.length_eq, List.length_range]
  have hnodup : (argsortDesc s).Nodup := hperm.nodup_iff.2 (List.nodup_range _)
  have hmem : ∀ i ∈ argsortDesc s, i < s.length := fun i hi =>
    List.mem_range.1 (hperm.mem_iff.1 hi)
  refine ⟨?_, ?_, ?_, ?_, ?_, ?_⟩
  · unfold topk
    rw [if_neg hne]
  · rw [List.length_take, halen, hslen]
  · exact (List.take_sublist k _).nodup hnodup
  · intro i hi
    rw [← hslen]
    exact hmem i (List.take_subset k _ hi)
  · have hp1 : List.Pairwise (rankRel s) ((argsortDesc s).take k) :=
      hsorted.sublist (List.take_sublist k _)
    have hp2 : List.Pairwise (fun i j : Nat => i ≠ j) ((argsortDesc s).take k) :=
      (List.take_sublist k _).nodup hnodup
    have := hp1.and hp2
    refine this.imp ?_
    rintro i j ⟨hr, hij⟩
    rcases hr with hlt | ⟨heq, hle⟩
    · exact Or.inl hlt
    · exact Or.inr ⟨heq, lt_of_le_of_ne hle hij⟩
  · intro i hi j hj hnj
    have hjr : j ∈ argsortDesc s := hperm.mem_iff.2 (List.mem_range.2 (hslen ▸ hj))
    have hjd : j ∈ (argsortDesc s).drop k := by
      rcases (List.mem_append.1 (by rw [List.take_append_drop]; exact hjr :
        j ∈ (argsortDesc s).take k ++ (argsortDesc s).drop k)) with h | h
      · exact absurd h hnj
      · exact h
    have hr : rankRel s i j := hsorted.rel_of_mem_take_of_mem_drop hi hjd
    rcases hr with hlt | ⟨heq, _⟩
    · exact le_of_lt hlt
    · exact le_of_eq heq.symm

/-- Witness for C1 on a one-chunk instance. -/
theorem c1_witness :
    ((["A"] : List String) ≠ [] ∧ ([[(1 : ℝ)]] : List (List ℝ)).length = (["A"] : List String).length) ∧
    topk (fun _ => [(1 : ℝ)]) "q" ["A"] [[(1 : ℝ)]] 1 =
      ((argsortDesc (simsOf ((fun _ : String => [(1 : ℝ)]) "q") [[(1 : ℝ)]])).take 1).map
        (fun i => (["A"] : List String).getD i "") :=
  ⟨⟨by decide, rfl⟩,
    ( c1_theorem (fun _ => [(1 : ℝ)]) "q" ["A"] [[(1 : ℝ)]] 1 (by decide) rfl).1⟩

end Trials
namespace Trials

theorem c1_dot_q : dotR [(3 : ℝ) / 1000000000, 4 / 1000000000]
    [(3 : ℝ) / 1000000000, 4 / 1000000000] = ((5 : ℝ) / 1000000000) ^ 2 := by
  unfold dotR
  norm_num

theorem c1_norm_q : normR [(3 : ℝ) / 1000000000, 4 / 1000000000] = 5 / 1000000000 := by
  unfold normR
  rw [c1_dot_q, Real.sqrt_sq (by norm_num)]

theorem c1_norm_v1 : normR [(3 : ℝ), 4] = 5 := by
  unfold normR
  rw [show dotR [(3 : ℝ), 4] [(3 : ℝ), 4] = (5 : ℝ) ^ 2 by unfold dotR; norm_num,
    Real.sqrt_sq (by norm_num)]

theorem c1_norm_v2 : normR [(40 : ℝ), 30] = 50 := by
  unfold normR
  rw [show dotR [(40 : ℝ), 30] [(40 : ℝ), 30] = (50 : ℝ) ^ 2 by unfold dotR; norm_num,
    Real.sqrt_sq (by norm_num)]

theorem c1_sims : simsOf [(3 : ℝ) / 1000000000, 4 / 1000000000] [[3, 4], [40, 30]] =
    [(5 : ℝ) / 7, 12 / 13] := by
  unfold simsOf
  rw [List.map_cons, List.map_cons, List.map_nil]
  rw [c1_norm_q, c1_norm_v1, c1_norm_v2]
  have h1 : dotR [(3 : ℝ), 4] [(3 : ℝ) / 1000000000, 4 / 1000000000] = 25 / 1000000000 := by
    unfold dotR
    norm_num
  have h2 : dotR [(40 : ℝ), 30] [(3 : ℝ) / 1000000000, 4 / 1000000000] = 240 / 1000000000 := by
    unfold dotR
    norm_num
  rw [h1, h2]
  norm_num

theorem c1_not_rank :
    ¬ rankRel [(5 : ℝ) / 7, 12 / 13] 0 1 := by
  unfold rankRel
  push_neg
  constructor
  · norm_num
  · intro h
    exact absurd h (by norm_num)

theorem c1_argsort : argsortDesc [(5 : ℝ) / 7, 12 / 13] = [1, 0] := by
  unfold argsortDesc
  rw [show ([(5 : ℝ) / 7, 12 / 13] : List ℝ).length = 2 by rfl,
    show List.range 2 = [0, 1] from rfl]
  simp only [List.insertionSort, List.orderedInsert]
  rw [if_neg c1_not_rank]

/-- Claim C1 as stated fails: with query embedding `(3e-9, 4e-9)` the chunk
vector `(3, 4)` has cosine similarity 1, strictly higher than `(40, 30)`
with cosine 24/25, yet the epsilon-stabilized score ranks `(40, 30)` first
and `topk` with `k = 1` returns chunk `B`, not the cosine-maximal chunk
`A`. -/
theorem c1_counterexample :
    topk (fun _ => [(3 : ℝ) / 1000000000, 4 / 1000000000]) "q" ["A", "B"]
      [[3, 4], [40, 30]] 1 = ["B"] ∧
    cosineSim [(3 : ℝ), 4] [(3 : ℝ) / 1000000000, 4 / 1000000000] >
      cosineSim [(40 : ℝ), 30] [(3 : ℝ) / 1000000000, 4 / 1000000000] := by
  constructor
  · unfold topk
    rw [if_neg (by decide : (["A", "B"] : List String) ≠ [])]
    simp only
    rw [c1_sims, c1_argsort]
    rfl
  · have hc1 : cosineSim [(3 : ℝ), 4] [(3 : ℝ) / 1000000000, 4 / 1000000000] = 1 := by
      unfold cosineSim
      rw [c1_norm_v1, c1_norm_q,
        show dotR [(3 : ℝ), 4] [(3 : ℝ) / 1000000000, 4 / 1000000000] = 25 / 1000000000 by
          unfold dotR; norm_num]
      norm_num
    have hc2 : cosineSim [(40 : ℝ), 30] [(3 : ℝ) / 1000000000, 4 / 1000000000] = 24 / 25 := by
      unfold cosineSim
      rw [c1_norm_v2, c1_norm_q,
        show dotR [(40 : ℝ), 30] [(3 : ℝ) / 1000000000, 4 / 1000000000] = 240 / 1000000000 by
          unfold dotR; norm_num]
      norm_num
    rw [hc1, hc2]
    norm_num

end Trials
